import Mathlib

/-!
Verification of the annual temperature-signal components of `river-dl`
(`river_dl/gw_utils.py` and `river_dl/loss_functions.py`).

Missing values (float NaN in the source) are modelled as `none : Option F`;
IEEE comparison semantics (every comparison with NaN is false) are modelled by
boolean comparison helpers that return `false` on `none`.
-/

/-- Boolean `x <= c` with NaN semantics: false when the value is missing.
Models Python/numpy comparisons such as `Ar_obs[i] <= 1.1`. -/
def oLe {F : Type} [LinearOrder F] (x : Option F) (c : F) : Bool :=
  match x with
  | none => false
  | some v => decide (v ≤ c)

/-- Boolean `x >= c` with NaN semantics: false when the value is missing.
Models comparisons such as `delPhi_obs[i] >= -10`. -/
def oGe {F : Type} [LinearOrder F] (x : Option F) (c : F) : Bool :=
  match x with
  | none => false
  | some v => decide (c ≤ v)

/-- Element-wise `x if x <= c else nan` (as in `gw_utils.py` line 198). -/
def keepLe {F : Type} [LinearOrder F] (c : F) (x : Option F) : Option F :=
  x.bind fun v => if v ≤ c then some v else none

/-- Element-wise `x if x >= c else nan` (as in `gw_utils.py` line 206). -/
def keepGe {F : Type} [LinearOrder F] (c : F) (x : Option F) : Option F :=
  x.bind fun v => if c ≤ v then some v else none

/-- Element-wise `x if x > 0 else 0 if isfinite(x) else nan`
(`gw_utils.py` line 209). -/
def clampPos {F : Type} [LinearOrder F] [Zero F] (x : Option F) : Option F :=
  x.map fun v => if 0 < v then v else 0

/-- The three plausibility rules applied to one segment's derived
`(Ar_obs, delPhi_obs)` pair, embedded from `gw_utils.annual_temp_stats`
lines 196-209.  Step 1 (lines 197-198) removes `Ar > 1.1` (and the paired
`delPhi`); step 2 (lines 205-206) removes `delPhi < -10` (and the paired
`Ar`); step 3 (line 209) clamps the remaining non-positive finite `delPhi`
to exactly 0.  Each list comprehension of the source acts element-wise, so
it is embedded as a function of one segment's pair. -/
def filterSignal {F : Type} [LinearOrderedField F] (Ar delPhi : Option F) :
    Option F × Option F :=
  -- line 197: delPhi_obs = [delPhi_obs[i] if Ar_obs[i] <= 1.1 else nan ...]
  let delPhi1 : Option F := if oLe Ar (11/10) then delPhi else none
  -- line 198: Ar_obs = [x if x <= 1.1 else nan for x in Ar_obs]
  let Ar1 : Option F := keepLe (11/10) Ar
  -- line 205: Ar_obs = [Ar_obs[i] if delPhi_obs[i] >= -10 else nan ...]
  let Ar2 : Option F := if oGe delPhi1 (-10) then Ar1 else none
  -- line 206: delPhi_obs = [x if x >= -10 else nan for x in delPhi_obs]
  let delPhi2 : Option F := keepGe (-10) delPhi1
  -- line 209: delPhi_obs = [x if x > 0 else 0 if isfinite(x) else nan ...]
  let delPhi3 : Option F := clampPos delPhi2
  (Ar2, delPhi3)

/-- Count of non-missing entries: `np.sum(np.isfinite(...))` in
`annual_temp_stats` line 129. -/
def finiteCount (temps : List (Option ℚ)) : ℕ :=
  (temps.filter Option.isSome).length

/-- The water temperatures surviving the plausibility band of
`annual_temp_stats` lines 132-133: values below 1 °C or above 60 °C are
set to NaN and then dropped together with the original NaNs. -/
def plausibleVals (temps : List (Option ℚ)) : List ℚ :=
  temps.filterMap fun o =>
    match o with
    | none => none
    | some v => if v < 1 ∨ 60 < v then none else some v

/-- Whether the observed-water fit is attempted (rather than forced to the
all-missing record), following the branch structure of `annual_temp_stats`
lines 129-171: the outer guard (line 129) requires strictly more than 365
non-missing samples, and the inner guards (lines 135 and 155) require at
least 365 samples surviving the 1-60 °C band. -/
def obsFitAttempted (temps : List (Option ℚ)) : Bool :=
  if 365 < finiteCount temps then
    if (plausibleVals temps).length < 365 then false
    else if 365 ≤ (plausibleVals temps).length then true
    else false
  else false

/-- The sine feature `sin(2*pi*j)` of a decimal date (`gw_utils` line 42). -/
noncomputable def sinw (t : ℝ) : ℝ := Real.sin (2 * Real.pi * t)

/-- The cosine feature `cos(2*pi*j)` of a decimal date (`gw_utils` line 42). -/
noncomputable def cosw (t : ℝ) : ℝ := Real.cos (2 * Real.pi * t)

/-- Column `k` of the design matrix `X = sm.add_constant(x)` with
`x = [[sin(2*pi*j), cos(2*pi*j)] for j in date_decimal]` (`gw_utils`
lines 42 and 49): column 0 is the intercept, column 1 the sine feature,
column 2 the cosine feature. -/
noncomputable def col : Fin 3 → ℝ → ℝ
  | 0, _ => 1
  | 1, t => sinw t
  | 2, t => cosw t

/-- Gram matrix `XᵀX` of the harmonic design over a list of decimal dates. -/
noncomputable def gram (ts : List ℝ) : Matrix (Fin 3) (Fin 3) ℝ :=
  Matrix.of fun i j => (ts.map fun t => col i t * col j t).sum

/-- Moment vector `Xᵀy` over a list of (decimal date, temperature) samples. -/
noncomputable def momentPts (pts : List (ℝ × ℝ)) : Fin 3 → ℝ :=
  fun i => (pts.map fun p => col i p.1 * p.2).sum

/-- The normal equations `XᵀXβ = Xᵀy` characterising the least-squares fit
computed by `sm.OLS with missing rows dropped, then .fit()` (`gw_utils` lines
49-52).  The statsmodels solver itself is third-party code; it returns a
minimiser of the squared error, which over the reals is exactly a solution
of the normal equations. -/
def isOLS (pts : List (ℝ × ℝ)) (β : Fin 3 → ℝ) : Prop :=
  Matrix.mulVec (gram (pts.map Prod.fst)) β = momentPts pts

/-- Amplitude from fitted coefficients:
`amp = math.sqrt(results.params[1]**2 + results.params[2]**2)`
(`gw_utils` line 56). -/
noncomputable def ampOf (params : Fin 3 → ℝ) : ℝ :=
  Real.sqrt ((params 1)^2 + (params 2)^2)

/-- Phase from fitted coefficients:
`phi = 3*math.pi/2 - math.atan(results.params[2]/results.params[1])`
(`gw_utils` line 60). -/
noncomputable def phiOf (params : Fin 3 → ℝ) : ℝ :=
  3 * Real.pi / 2 - Real.arctan (params 2 / params 1)

/-- The synthetic test series of spec §8:
`T(t) = 5 + 3*sin(2*pi*t) + 4*cos(2*pi*t)`. -/
noncomputable def Tsyn (t : ℝ) : ℝ := 5 + 3 * sinw t + 4 * cosw t

/-- Eight quarterly decimal dates spanning two years, used as concrete
sample dates for the synthetic-recovery witnesses. -/
noncomputable def ts8 : List ℝ := [0, 1/4, 1/2, 3/4, 1, 5/4, 3/2, 7/4]

/-- Training-time loss input tensor.  The fields are the channel slices of
the `data` tensor consumed by `loss_functions.y_data_components` (lines
83-100) and `loss_functions.GW_loss_prep` (lines 218-255): `obs k` models
`data[:,:,k]` for `k = 0, 1`; the groundwater block `data[:,:,2:-2]`
carries, in order, `Ar_obs`, `delPhi_obs`, `air_phi`, `air_amp`, `sin_wt`,
`cos_wt`; and `weights k` models `data[:,:,-2:]`.  Observation channels
may hold NaN (`none`); the constructed feature channels are real-valued. -/
structure LossData (S T : ℕ) where
  obs : Fin S → Fin T → ℕ → Option ℝ
  Ar_obs : Fin S → Fin T → Option ℝ
  delPhi_obs : Fin S → Fin T → Option ℝ
  air_phi : Fin S → Fin T → ℝ
  air_amp : Fin S → Fin T → ℝ
  sin_wt : Fin S → Fin T → ℝ
  cos_wt : Fin S → Fin T → ℝ
  weights : Fin S → Fin T → ℕ → ℝ

/-- One row of the per-segment stacked design
`X_mat = tf.stack((ones, sin_wt, cos_wt), axis=1)`
(`loss_functions` line 232). -/
noncomputable def colB {S T : ℕ} (d : LossData S T) (s : Fin S) (t : Fin T) :
    Fin 3 → ℝ
  | 0 => 1
  | 1 => d.sin_wt s t
  | 2 => d.cos_wt s t

/-- Per-segment Gram matrix of the batched design (the einsum chain of
`GW_loss_prep` lines 238-239 restricted to one batch element). -/
noncomputable def gramB {S T : ℕ} (d : LossData S T) (s : Fin S) :
    Matrix (Fin 3) (Fin 3) ℝ :=
  Matrix.of fun i j => ∑ t : Fin T, colB d s t i * colB d s t j

/-- Per-segment moment vector `Xᵀ·y_pred_temp` of the batched design. -/
noncomputable def momB {S T : ℕ} (d : LossData S T)
    (ypt : Fin S → Fin T → ℝ) (s : Fin S) : Fin 3 → ℝ :=
  fun i => ∑ t : Fin T, colB d s t i * ypt s t

/-- Batched regression coefficients `a_b` of `GW_loss_prep` (lines
238-242).  The source computes `Xᵀ·pinv(X·Xᵀ)·y` with einsums, which by
the identity `A⁺ = Aᵀ(A·Aᵀ)⁺` is the minimum-norm least-squares solution;
on a non-singular Gram matrix — the only case the theorems below rely on —
this equals the normal-equation solution `(XᵀX)⁻¹·Xᵀ·y` embedded here
(`Matrix.inv` agrees with the pseudo-inverse of an invertible matrix). -/
noncomputable def gwCoeffs {S T : ℕ} (d : LossData S T)
    (ypt : Fin S → Fin T → ℝ) (s : Fin S) : Fin 3 → ℝ :=
  Matrix.mulVec (gramB d s)⁻¹ (momB d ypt s)

/-- Amplitude `Aw = tf.math.sqrt(a_b[:,1,0]**2 + a_b[:,2,0]**2)`
(`loss_functions` line 246). -/
noncomputable def Aw {S T : ℕ} (d : LossData S T)
    (ypt : Fin S → Fin T → ℝ) (s : Fin S) : ℝ :=
  Real.sqrt ((gwCoeffs d ypt s 1)^2 + (gwCoeffs d ypt s 2)^2)

/-- Phase `Phiw = 3*m.pi/2 - tf.math.atan(a_b[:,2,0]/a_b[:,1,0])`
(`loss_functions` line 248). -/
noncomputable def Phiw {S T : ℕ} (d : LossData S T)
    (ypt : Fin S → Fin T → ℝ) (s : Fin S) : ℝ :=
  3 * Real.pi / 2 - Real.arctan (gwCoeffs d ypt s 2 / gwCoeffs d ypt s 1)

/-- Quarterly decimal dates over two years as a `Fin 8`-indexed vector. -/
noncomputable def tv8 : Fin 8 → ℝ := ![0, 1/4, 1/2, 3/4, 1, 5/4, 3/2, 7/4]

/-- A concrete single-segment batch whose feature channels are the
sine/cosine features of the dates `tv8`. -/
noncomputable def d8 : LossData 1 8 where
  obs := fun _ _ _ => none
  Ar_obs := fun _ _ => none
  delPhi_obs := fun _ _ => none
  air_phi := fun _ _ => 0
  air_amp := fun _ _ => 1
  sin_wt := fun _ t => sinw (tv8 t)
  cos_wt := fun _ t => cosw (tv8 t)
  weights := fun _ _ _ => 0

/-- The synthetic sinusoid sampled at the dates `tv8`, as a predicted
temperature tensor for the single-segment batch `d8`. -/
noncomputable def yp8 : Fin 1 → Fin 8 → ℝ := fun _ t => Tsyn (tv8 t)

/-- Masked squared error of one position:
`tf.where(tf.math.is_nan(y_true), tf.zeros_like(y_true), y_pred - y_true)`
squared (`loss_functions.rmse` lines 14-17). -/
noncomputable def sqOrZero (o : Option ℝ) (p : ℝ) : ℝ :=
  match o with
  | none => 0
  | some v => (p - v)^2

/-- Masked root-mean-square error (`loss_functions.rmse`, lines 6-21):
count the non-missing true values (`num_y_true`); if positive, the square
root of (sum of masked squared errors / count); otherwise exactly 0. -/
noncomputable def rmse (y_true : List (Option ℝ)) (y_pred : List ℝ) : ℝ :=
  let num_y_true := (y_true.filter Option.isSome).length
  if 0 < num_y_true then
    Real.sqrt ((List.zipWith sqOrZero y_true y_pred).sum / num_y_true)
  else 0

/-- Flatten a `[segments, timesteps]` tensor to a list, row-major. -/
def flat2 {α : Type} {S T : ℕ} (g : Fin S → Fin T → α) : List α :=
  (List.ofFn fun s => List.ofFn fun t => g s t).flatten

/-- Function `y_data_components(data, y_pred, var_idx)` (`loss_functions` lines
83-100): zero-weighted observations are turned into NaN
(`tf.where(weights == 0, np.nan, y_true)`), then the `var_idx` channel of
the true values, the predictions and the weights is selected. -/
noncomputable def y_data_components {S T : ℕ} (d : LossData S T)
    (y_pred : Fin S → Fin T → ℕ → ℝ) (var_idx : ℕ) :
    List (Option ℝ) × List ℝ × List ℝ :=
  (flat2 fun s t =>
      if d.weights s t var_idx = 0 then none else d.obs s t var_idx,
   flat2 fun s t => y_pred s t var_idx,
   flat2 fun s t => d.weights s t var_idx)

/-- Function `rmse_masked_one_var(data, y_pred, var_idx)` (`loss_functions` lines
103-105). -/
noncomputable def rmse_masked_one_var {S T : ℕ} (d : LossData S T)
    (y_pred : Fin S → Fin T → ℕ → ℝ) (var_idx : ℕ) : ℝ :=
  rmse (y_data_components d y_pred var_idx).1
    (y_data_components d y_pred var_idx).2.1

/-- The unscaled predicted temperatures
`y_pred_temp = y_pred[:,:,temp_index] * temp_sd + temp_mean`
(`GW_loss_prep` lines 221-227). -/
noncomputable def yPredTemp {S T : ℕ} (temp_index : ℕ)
    (y_pred : Fin S → Fin T → ℕ → ℝ) (temp_mean temp_sd : ℝ) :
    Fin S → Fin T → ℝ :=
  fun s t => y_pred s t temp_index * temp_sd + temp_mean

/-- Ratio `Ar_pred = Aw / y_true[:,0,3]` (`GW_loss_prep` line 253): predicted
amplitude over the stored air amplitude. -/
noncomputable def ArPred {S T : ℕ} [NeZero T] (d : LossData S T)
    (ypt : Fin S → Fin T → ℝ) (s : Fin S) : ℝ :=
  Aw d ypt s / d.air_amp s 0

/-- Shift `delPhi_pred = (Phiw - y_true[:,0,2])*365/(2*m.pi)` (`GW_loss_prep`
line 251). -/
noncomputable def delPhiPred {S T : ℕ} [NeZero T] (d : LossData S T)
    (ypt : Fin S → Fin T → ℝ) (s : Fin S) : ℝ :=
  (Phiw d ypt s - d.air_phi s 0) * 365 / (2 * Real.pi)

/-- Function `GW_loss_prep(temp_index, data, y_pred, temp_mean, temp_sd)`
(`loss_functions` lines 218-255): returns the stored `Ar_obs`
(`y_true[:,0,0]`), the regression `Ar_pred`, the stored `delPhi_obs`
(`y_true[:,0,1]`) and the regression `delPhi_pred`, one value per
segment. -/
noncomputable def GW_loss_prep {S T : ℕ} [NeZero T] (temp_index : ℕ)
    (d : LossData S T) (y_pred : Fin S → Fin T → ℕ → ℝ)
    (temp_mean temp_sd : ℝ) :
    List (Option ℝ) × List ℝ × List (Option ℝ) × List ℝ :=
  let ypt := yPredTemp temp_index y_pred temp_mean temp_sd
  (List.ofFn fun s => d.Ar_obs s 0,
   List.ofFn fun s => ArPred d ypt s,
   List.ofFn fun s => d.delPhi_obs s 0,
   List.ofFn fun s => delPhiPred d ypt s)

/-- The composite groundwater loss `rmse_masked_combined_gw` returned by
`weighted_masked_rmse_gw(temp_index, temp_mean, temp_sd, lamb, lamb2,
lamb3)` (`loss_functions` lines 193-216). -/
noncomputable def weighted_masked_rmse_gw {S T : ℕ} [NeZero T]
    (temp_index : ℕ) (temp_mean temp_sd lamb lamb2 lamb3 : ℝ)
    (d : LossData S T) (y_pred : Fin S → Fin T → ℕ → ℝ) : ℝ :=
  let rmse_main := rmse_masked_one_var d y_pred 0
  let rmse_aux := rmse_masked_one_var d y_pred 1
  let p := GW_loss_prep temp_index d y_pred temp_mean temp_sd
  let rmse_Ar := rmse p.1 p.2.1
  let rmse_delPhi := rmse p.2.2.1 p.2.2.2
  rmse_main + lamb * rmse_aux + lamb2 * rmse_Ar + lamb3 * rmse_delPhi

/-- A trivial one-segment, one-timestep loss input used to instantiate the
composite-loss witnesses. -/
noncomputable def dEx : LossData 1 1 where
  obs := fun _ _ _ => none
  Ar_obs := fun _ _ => none
  delPhi_obs := fun _ _ => none
  air_phi := fun _ _ => 0
  air_amp := fun _ _ => 1
  sin_wt := fun _ _ => 0
  cos_wt := fun _ _ => 1
  weights := fun _ _ _ => 0

/-- Function `mean_masked(y)` (`loss_functions` lines 124-129): missing entries are
replaced by zero (`zero_or_val`), summed, and divided by the count of
non-missing entries (`num_vals`). -/
noncomputable def mean_masked (y : List (Option ℝ)) : ℝ :=
  (y.map fun o => o.getD 0).sum / ((y.filter Option.isSome).length : ℝ)

/-- Function `dev_masked(y)` (`loss_functions` lines 132-135): deviation from the
masked mean at non-missing positions, zero at missing positions. -/
noncomputable def dev_masked (y : List (Option ℝ)) : List ℝ :=
  y.map fun o =>
    match o with
    | none => 0
    | some v => v - mean_masked y

/-- Function `std_masked(y)` (`loss_functions` lines 138-143): square root of (sum
of squared masked deviations / (num_vals - 1)); note the denominator is
the real subtraction `count - 1`. -/
noncomputable def std_masked (y : List (Option ℝ)) : ℝ :=
  Real.sqrt (((dev_masked y).map fun x => x^2).sum /
    (((y.filter Option.isSome).length : ℝ) - 1))

/-- The non-missing subset of a masked series (spec wording of C7). -/
def validVals (y : List (Option ℝ)) : List ℝ := y.filterMap id

/-- Ordinary mean of a plain series (spec wording of C7). -/
noncomputable def listMean (xs : List ℝ) : ℝ := xs.sum / (xs.length : ℝ)

/-- Ordinary sample standard deviation (denominator `n - 1`) of a plain
series (spec wording of C7). -/
noncomputable def sampleStd (xs : List ℝ) : ℝ :=
  Real.sqrt ((xs.map fun v => (v - listMean xs)^2).sum /
    ((xs.length : ℝ) - 1))

/-- A successful Harmonic Fit Result: the six fields returned by
`gw_utils.amp_phi` on its success path (lines 56-63).  A failed fit is
`none : Option Fit` — all six fields missing at once, exactly as the
`except` branch (lines 64-70) sets all six to NaN. -/
structure Fit where
  amp : ℝ
  phi : ℝ
  amp_low : ℝ
  amp_high : ℝ
  phi_low : ℝ
  phi_high : ℝ

/-- Data cleaning inside `amp_phi`: for a water series, temperatures
outside [1, 45] °C are set to NaN (`gw_utils` line 40); rows whose
temperature is NaN are then dropped by `sm.OLS with missing rows dropped`
(line 51). -/
noncomputable def cleanPts (pts : List (ℝ × Option ℝ)) (isWater : Bool) :
    List (ℝ × ℝ) :=
  pts.filterMap fun p =>
    match p.2 with
    | none => none
    | some v =>
        if isWater then
          if v < 1 ∨ 45 < v then none else some (p.1, v)
        else some (p.1, v)

/-- The `amp_phi` estimator (`gw_utils` lines 15-72) over decimal dates.
The statsmodels OLS solver and its 95 % confidence intervals are
third-party internals: the fitted coefficients are embedded as the
normal-equation solution on the cleaned samples; the confidence-interval
matrix `confInt` (row per coefficient, low/high column) is carried as a
parameter; and the solver's failure modes (singular design after
dropping, all-missing/empty input) are modelled, following the spec, by
the non-invertible-Gram case.  Any failure takes the `except` branch
(lines 64-70) and returns the all-missing result `none`. -/
noncomputable def amp_phi (confInt : Fin 3 → Fin 2 → ℝ)
    (pts : List (ℝ × Option ℝ)) (isWater : Bool) : Option Fit :=
  let c := cleanPts pts isWater
  let ts := c.map Prod.fst
  if (gram ts).det = 0 then none
  else
    let params : Fin 3 → ℝ := Matrix.mulVec (gram ts)⁻¹ (momentPts c)
    let phiRange : Fin 2 → Fin 2 → ℝ := fun x y =>
      3 * Real.pi / 2 - Real.arctan (confInt 2 x / confInt 1 y)
    some
      { amp := ampOf params
        phi := phiOf params
        amp_low := Real.sqrt ((min |confInt 1 0| |confInt 1 1|)^2
          + (min |confInt 2 0| |confInt 2 1|)^2)
        amp_high := Real.sqrt ((max |confInt 1 0| |confInt 1 1|)^2
          + (max |confInt 2 0| |confInt 2 1|)^2)
        phi_low := min (min (phiRange 0 0) (phiRange 0 1))
          (min (phiRange 1 0) (phiRange 1 1))
        phi_high := max (max (phiRange 0 0) (phiRange 0 1))
          (max (phiRange 1 0) (phiRange 1 1)) }

/-- NaN-propagating division, for the derived ratio
`Ar_obs = water_amp_obs / air_amp` (`annual_temp_stats` line 179). -/
noncomputable def oDiv : Option ℝ → Option ℝ → Option ℝ
  | some a, some b => some (a / b)
  | _, _ => none

/-- NaN-propagating subtraction, for the derived shift
`delPhi_obs = (water_phi_obs - air_phi) * 365/(2*pi)`
(`annual_temp_stats` line 180). -/
noncomputable def oSub : Option ℝ → Option ℝ → Option ℝ
  | some a, some b => some (a - b)
  | _, _ => none

/-- One segment's derived record in `annual_temp_stats`: `Ar_obs` (line
179) and `delPhi_obs` (line 180) computed from the air fit and the
observed-water fit, then passed through the plausibility filter (lines
196-209). -/
noncomputable def segSignal (airFit waterFit : Option Fit) :
    Option ℝ × Option ℝ :=
  let Ar := oDiv (waterFit.map Fit.amp) (airFit.map Fit.amp)
  let dP := (oSub (waterFit.map Fit.phi) (airFit.map Fit.phi)).map
    fun x => x * 365 / (2 * Real.pi)
  filterSignal Ar dP

/-- A concrete successful fit record used by witnesses. -/
noncomputable def fitEx : Fit := ⟨1, 1, 1, 1, 1, 1⟩


@[simp] lemma oLe_none {F : Type} [LinearOrder F] (c : F) :
    oLe (none : Option F) c = false := rfl

@[simp] lemma oLe_some {F : Type} [LinearOrder F] (v c : F) :
    oLe (some v) c = decide (v ≤ c) := rfl

@[simp] lemma oGe_none {F : Type} [LinearOrder F] (c : F) :
    oGe (none : Option F) c = false := rfl

@[simp] lemma oGe_some {F : Type} [LinearOrder F] (v c : F) :
    oGe (some v) c = decide (c ≤ v) := rfl

@[simp] lemma keepLe_none {F : Type} [LinearOrder F] (c : F) :
    keepLe c (none : Option F) = none := rfl

@[simp] lemma keepLe_some {F : Type} [LinearOrder F] (c v : F) :
    keepLe c (some v) = if v ≤ c then some v else none := rfl

@[simp] lemma keepGe_none {F : Type} [LinearOrder F] (c : F) :
    keepGe c (none : Option F) = none := rfl

@[simp] lemma keepGe_some {F : Type} [LinearOrder F] (c v : F) :
    keepGe c (some v) = if c ≤ v then some v else none := rfl

@[simp] lemma clampPos_none {F : Type} [LinearOrder F] [Zero F] :
    clampPos (none : Option F) = none := rfl

@[simp] lemma clampPos_some {F : Type} [LinearOrder F] [Zero F] (v : F) :
    clampPos (some v) = some (if 0 < v then v else 0) := rfl

/-- C1: the Signal Table Builder applies the three plausibility rules to the
derived `(Ar_obs, delPhi_obs)` pair in this exact order: (i) `Ar_obs > 1.1`
sets both to missing; (ii) `delPhi_obs < -10` sets both to missing;
(iii) `-10 ≤ delPhi_obs ≤ 0` (with in-bounds `Ar_obs`) clamps `delPhi_obs`
to exactly 0 and leaves `Ar_obs` unchanged.  In particular a segment
entering with `Ar_obs = 1.2, delPhi_obs = 5` ends with both missing, and a
segment with in-bounds `Ar_obs` and `delPhi_obs = -3` ends with
`delPhi_obs = 0` and `Ar_obs` unchanged. -/
theorem filter_rules_order :
    (∀ (a : ℚ) (d : Option ℚ), 11/10 < a →
      filterSignal (some a) d = (none, none)) ∧
    (∀ (a : Option ℚ) (d : ℚ), d < -10 →
      filterSignal a (some d) = (none, none)) ∧
    (∀ (a d : ℚ), a ≤ 11/10 → -10 ≤ d → d ≤ 0 →
      filterSignal (some a) (some d) = (some a, some 0)) ∧
    filterSignal (some ((12:ℚ)/10)) (some 5) = (none, none) ∧
    (∀ (a : ℚ), a ≤ 11/10 →
      filterSignal (some a) (some (-3)) = (some a, some 0)) := by
  refine ⟨?_, ?_, ?_, by norm_num [filterSignal], ?_⟩
  · intro a d ha
    simp [filterSignal, not_le.mpr ha]
  · intro a d hd
    rcases a with _ | x
    · simp [filterSignal]
    · by_cases hx : x ≤ 11/10 <;>
        simp [filterSignal, hx, not_le.mpr (show d < -10 by linarith)]
  · intro a d ha hd1 hd2
    simp [filterSignal, ha, hd1, not_lt.mpr hd2]
  · intro a ha
    simp [filterSignal, ha]
    norm_num

/-- Concrete instantiation of `filter_rules_order`: the two spec examples
evaluated at explicit inputs. -/
theorem filter_rules_order_witness :
    filterSignal (some ((12:ℚ)/10)) (some 5) = (none, none) ∧
    filterSignal (some ((1:ℚ))) (some (-3)) = (some 1, some 0) :=
  ⟨filter_rules_order.2.2.2.1,
   filter_rules_order.2.2.2.2 1 (by norm_num)⟩

lemma filterSignal_none_iff {F : Type} [LinearOrderedField F] (a d : Option F) :
    (filterSignal a d).1 = none ↔ (filterSignal a d).2 = none := by
  rcases a with _ | x
  · simp [filterSignal]
  · rcases d with _ | y
    · by_cases hx : x ≤ 11/10 <;> simp [filterSignal, hx]
    · by_cases hx : x ≤ 11/10
      · by_cases hy : (-10 : F) ≤ y <;> simp [filterSignal, hx, hy]
      · simp [filterSignal, hx]

lemma plausibleVals_replicate_ten (n : ℕ) :
    plausibleVals (List.replicate n (some (10:ℚ))) = List.replicate n 10 := by
  have h10 : ¬ ((10:ℚ) < 1 ∨ 60 < (10:ℚ)) := by norm_num
  induction n with
  | zero => rfl
  | succ n ih =>
      rw [List.replicate_succ, List.replicate_succ]
      unfold plausibleVals at ih ⊢
      rw [List.filterMap_cons]
      simp only [if_neg h10]
      rw [ih]

lemma finiteCount_replicate_ten (n : ℕ) :
    finiteCount (List.replicate n (some (10:ℚ))) = n := by
  induction n with
  | zero => rfl
  | succ n ih =>
      unfold finiteCount at ih ⊢
      rw [List.replicate_succ, List.filter_cons]
      simp only [Option.isSome_some, if_pos, List.length_cons, ih]

/-- C2 as stated is false at the boundary: a segment whose series consists
of exactly 365 non-missing, plausible (1-60 °C) water temperatures has at
least 365 plausible samples, yet the fit is NOT attempted, because the
outer guard of `annual_temp_stats` line 129 demands strictly more than 365
non-missing samples. -/
theorem obsFit_boundary_cex :
    365 ≤ (plausibleVals (List.replicate 365 (some (10:ℚ)))).length ∧
    obsFitAttempted (List.replicate 365 (some (10:ℚ))) = false := by
  constructor
  · rw [plausibleVals_replicate_ten, List.length_replicate]
  · unfold obsFitAttempted
    rw [finiteCount_replicate_ten]
    simp

/-- C2 (amended): the observed-water fit is attempted if and only if the
segment has strictly more than 365 non-missing samples AND at least 365
samples that are also physically plausible (1-60 °C); otherwise the whole
fit is forced to missing.  In particular, below 365 plausible samples the
fit is always forced to missing, but at exactly 365 plausible samples it
is attempted only when some additional non-missing (implausible) sample
pushes the raw count beyond 365. -/
theorem obsFit_threshold (temps : List (Option ℚ)) :
    obsFitAttempted temps = true ↔
      365 < finiteCount temps ∧ 365 ≤ (plausibleVals temps).length := by
  unfold obsFitAttempted
  split_ifs with h1 h2 h3
  · exact iff_of_false (by simp) (by omega)
  · exact iff_of_true rfl ⟨h1, by omega⟩
  · exact absurd (le_of_not_lt h2) h3
  · exact iff_of_false (by simp) (by omega)

lemma mulVec_cancel {A : Matrix (Fin 3) (Fin 3) ℝ} (hA : A.det ≠ 0)
    {x y : Fin 3 → ℝ} (h : A.mulVec x = A.mulVec y) : x = y := by
  have hu : IsUnit A.det := isUnit_iff_ne_zero.mpr hA
  have h2 := congrArg (fun v => Matrix.mulVec A⁻¹ v) h
  simpa [Matrix.mulVec_mulVec, Matrix.nonsing_inv_mul A hu,
    Matrix.one_mulVec] using h2

lemma sum_map_syn (ts : List ℝ) (f : ℝ → ℝ) :
    (ts.map fun t => f t * Tsyn t).sum =
      5 * (ts.map fun t => f t * 1).sum
        + 3 * (ts.map fun t => f t * sinw t).sum
        + 4 * (ts.map fun t => f t * cosw t).sum := by
  induction ts with
  | nil => simp
  | cons a l ih =>
      simp only [List.map_cons, List.sum_cons]
      rw [ih]
      simp only [Tsyn]
      ring

lemma map_fst_syn (ts : List ℝ) :
    (ts.map fun t => (t, Tsyn t)).map Prod.fst = ts := by
  simp [List.map_map, Function.comp_def]

lemma momentPts_syn_vec (ts : List ℝ) :
    momentPts (ts.map fun t => (t, Tsyn t)) =
      Matrix.mulVec (gram ts) ![(5:ℝ), 3, 4] := by
  funext i
  have hmap : (ts.map fun t => (t, Tsyn t)).map (fun p => col i p.1 * p.2)
      = ts.map fun t => col i t * Tsyn t := by
    rw [List.map_map]; rfl
  rw [momentPts, hmap, sum_map_syn ts (col i)]
  simp only [Matrix.mulVec, Matrix.dotProduct, Fin.sum_univ_three, gram,
    Matrix.of_apply, Matrix.cons_val_zero, Matrix.cons_val_one,
    Matrix.head_cons, Matrix.cons_val_two, Matrix.tail_cons]
  have hc0 : (fun t => col i t * col 0 t) = fun t => col i t * 1 := rfl
  have hc1 : (fun t => col i t * col 1 t) = fun t => col i t * sinw t := rfl
  have hc2 : (fun t => col i t * col 2 t) = fun t => col i t * cosw t := rfl
  rw [hc0, hc1, hc2]
  ring

lemma olsSyn (ts : List ℝ) :
    isOLS (ts.map fun t => (t, Tsyn t)) ![(5:ℝ), 3, 4] := by
  unfold isOLS
  rw [map_fst_syn, momentPts_syn_vec]

/-- C4: the Harmonic Signal Estimator extracts amplitude `sqrt(a²+b²)` and
phase `3π/2 − atan(b/a)` from the fitted sin/cos coefficients, and on the
synthetic series `T(t) = 5 + 3·sin(2πt) + 4·cos(2πt)` any least-squares
fit over sample dates with a non-singular design recovers amplitude
exactly `5 = sqrt(3²+4²)` and phase exactly `3π/2 − atan(4/3)`. -/
theorem synthetic_recovery (ts : List ℝ) (β : Fin 3 → ℝ)
    (hβ : isOLS (ts.map fun t => (t, Tsyn t)) β)
    (hdet : (gram ts).det ≠ 0) :
    ampOf β = 5 ∧ phiOf β = 3 * Real.pi / 2 - Real.arctan (4/3) := by
  have hβ' : Matrix.mulVec (gram ts) β
      = Matrix.mulVec (gram ts) ![(5:ℝ), 3, 4] := by
    have h := hβ
    unfold isOLS at h
    rw [map_fst_syn, momentPts_syn_vec] at h
    exact h
  have hb : β = ![(5:ℝ), 3, 4] := mulVec_cancel hdet hβ'
  constructor
  · rw [hb, ampOf]
    simp only [Matrix.cons_val_one, Matrix.head_cons, Matrix.cons_val_two,
      Matrix.tail_cons]
    rw [show ((3:ℝ)^2 + 4^2) = 25 by norm_num,
      show (25:ℝ) = 5^2 by norm_num,
      Real.sqrt_sq (by norm_num : (0:ℝ) ≤ 5)]
  · rw [hb, phiOf]
    simp only [Matrix.cons_val_one, Matrix.head_cons, Matrix.cons_val_two,
      Matrix.tail_cons]

lemma sinw_t0 : sinw 0 = 0 := by simp [sinw]

lemma cosw_t0 : cosw 0 = 1 := by simp [cosw]

lemma sinw_t1 : sinw (1/4) = 1 := by
  rw [sinw, show 2 * Real.pi * (1/4 : ℝ) = Real.pi/2 by ring,
    Real.sin_pi_div_two]

lemma cosw_t1 : cosw (1/4) = 0 := by
  rw [cosw, show 2 * Real.pi * (1/4 : ℝ) = Real.pi/2 by ring,
    Real.cos_pi_div_two]

lemma sinw_t2 : sinw (1/2) = 0 := by
  rw [sinw, show 2 * Real.pi * (1/2 : ℝ) = Real.pi by ring, Real.sin_pi]

lemma cosw_t2 : cosw (1/2) = -1 := by
  rw [cosw, show 2 * Real.pi * (1/2 : ℝ) = Real.pi by ring, Real.cos_pi]

lemma sinw_t3 : sinw (3/4) = -1 := by
  rw [sinw, show 2 * Real.pi * (3/4 : ℝ) = Real.pi + Real.pi/2 by ring,
    Real.sin_add]
  simp

lemma cosw_t3 : cosw (3/4) = 0 := by
  rw [cosw, show 2 * Real.pi * (3/4 : ℝ) = Real.pi + Real.pi/2 by ring,
    Real.cos_add]
  simp

lemma sinw_t4 : sinw 1 = 0 := by
  rw [sinw, show 2 * Real.pi * (1 : ℝ) = 2 * Real.pi by ring,
    Real.sin_two_pi]

lemma cosw_t4 : cosw 1 = 1 := by
  rw [cosw, show 2 * Real.pi * (1 : ℝ) = 2 * Real.pi by ring,
    Real.cos_two_pi]

lemma sinw_t5 : sinw (5/4) = 1 := by
  rw [sinw, show 2 * Real.pi * (5/4 : ℝ) = 2*Real.pi + Real.pi/2 by ring,
    Real.sin_add]
  simp [Real.sin_two_pi, Real.cos_two_pi]

lemma cosw_t5 : cosw (5/4) = 0 := by
  rw [cosw, show 2 * Real.pi * (5/4 : ℝ) = 2*Real.pi + Real.pi/2 by ring,
    Real.cos_add]
  simp [Real.sin_two_pi, Real.cos_two_pi]

lemma sinw_t6 : sinw (3/2) = 0 := by
  rw [sinw, show 2 * Real.pi * (3/2 : ℝ) = 2*Real.pi + Real.pi by ring,
    Real.sin_add]
  simp [Real.sin_two_pi, Real.cos_two_pi]

lemma cosw_t6 : cosw (3/2) = -1 := by
  rw [cosw, show 2 * Real.pi * (3/2 : ℝ) = 2*Real.pi + Real.pi by ring,
    Real.cos_add]
  simp [Real.sin_two_pi, Real.cos_two_pi]

lemma sinw_t7 : sinw (7/4) = -1 := by
  rw [sinw,
    show 2 * Real.pi * (7/4 : ℝ) = 2*Real.pi + (Real.pi + Real.pi/2) by ring,
    Real.sin_add, Real.sin_add, Real.cos_add]
  simp [Real.sin_two_pi, Real.cos_two_pi]

lemma cosw_t7 : cosw (7/4) = 0 := by
  rw [cosw,
    show 2 * Real.pi * (7/4 : ℝ) = 2*Real.pi + (Real.pi + Real.pi/2) by ring,
    Real.cos_add, Real.sin_add, Real.cos_add]
  simp [Real.sin_two_pi, Real.cos_two_pi]

lemma gram_ts8 : gram ts8 = Matrix.of ![![8,0,0], ![0,4,0], ![0,0,4]] := by
  ext i j
  fin_cases i <;> fin_cases j <;>
    simp [-one_div, gram, ts8, col, sinw_t0, cosw_t0, sinw_t1, cosw_t1,
      sinw_t2, cosw_t2, sinw_t3, cosw_t3, sinw_t4, cosw_t4, sinw_t5,
      cosw_t5, sinw_t6, cosw_t6, sinw_t7, cosw_t7, Matrix.vecHead,
      Matrix.vecTail] <;> norm_num

lemma det_gram_ts8 : (gram ts8).det ≠ 0 := by
  rw [gram_ts8, Matrix.det_fin_three]
  norm_num

/-- Concrete instantiation of `synthetic_recovery` at the eight quarterly
sample dates `ts8`, whose design is non-singular, with the exact
least-squares solution `(5, 3, 4)`. -/
theorem synthetic_recovery_witness :
    ampOf ![(5:ℝ), 3, 4] = 5 ∧
    phiOf ![(5:ℝ), 3, 4] = 3 * Real.pi / 2 - Real.arctan (4/3) :=
  synthetic_recovery ts8 ![(5:ℝ), 3, 4] (olsSyn ts8) det_gram_ts8

lemma gramB_eq_gram {T : ℕ} (d : LossData 1 T) (tv : Fin T → ℝ)
    (hsin : ∀ t, d.sin_wt 0 t = sinw (tv t))
    (hcos : ∀ t, d.cos_wt 0 t = cosw (tv t)) :
    gramB d 0 = gram (List.ofFn tv) := by
  ext i j
  simp only [gramB, gram, Matrix.of_apply, List.map_ofFn, List.sum_ofFn,
    Function.comp_def]
  refine Finset.sum_congr rfl fun t _ => ?_
  have hc : ∀ k : Fin 3, colB d 0 t k = col k (tv t) := by
    intro k
    fin_cases k <;> simp [colB, col, hsin, hcos]
  rw [hc i, hc j]

lemma momB_eq_momentPts {T : ℕ} (d : LossData 1 T) (tv : Fin T → ℝ)
    (ypt : Fin 1 → Fin T → ℝ)
    (hsin : ∀ t, d.sin_wt 0 t = sinw (tv t))
    (hcos : ∀ t, d.cos_wt 0 t = cosw (tv t)) :
    momB d ypt 0 = momentPts (List.ofFn fun t => (tv t, ypt 0 t)) := by
  funext i
  simp only [momB, momentPts, List.map_ofFn, List.sum_ofFn,
    Function.comp_def]
  refine Finset.sum_congr rfl fun t _ => ?_
  have hc : colB d 0 t i = col i (tv t) := by
    fin_cases i <;> simp [colB, col, hsin, hcos]
  rw [hc]

/-- C3: for a single-segment batch whose sine/cosine feature channels are
built from sample dates `tv` and whose (unscaled) predicted temperature
series is `ypt`, if the scalar Harmonic Signal Estimator's least-squares
fit of the same series has coefficients `β` and the design is
non-singular, then the batched regression's amplitude `Aw` and phase
`Phiw` equal the scalar estimator's amplitude and phase extracted from
`β`: the two implementations compute the same amplitude/phase function of
the fitted sin/cos coefficients. -/
theorem batched_matches_scalar {T : ℕ} (d : LossData 1 T) (tv : Fin T → ℝ)
    (ypt : Fin 1 → Fin T → ℝ)
    (hsin : ∀ t, d.sin_wt 0 t = sinw (tv t))
    (hcos : ∀ t, d.cos_wt 0 t = cosw (tv t))
    (β : Fin 3 → ℝ)
    (hβ : isOLS (List.ofFn fun t => (tv t, ypt 0 t)) β)
    (hdet : (gram (List.ofFn tv)).det ≠ 0) :
    Aw d ypt 0 = ampOf β ∧ Phiw d ypt 0 = phiOf β := by
  have hfst : (List.ofFn fun t => (tv t, ypt 0 t)).map Prod.fst
      = List.ofFn tv := by
    simp [List.map_ofFn, Function.comp_def]
  have hg : gramB d 0 = gram (List.ofFn tv) := gramB_eq_gram d tv hsin hcos
  have hm : momB d ypt 0 = momentPts (List.ofFn fun t => (tv t, ypt 0 t)) :=
    momB_eq_momentPts d tv ypt hsin hcos
  have hco : gwCoeffs d ypt 0 = β := by
    have h := hβ
    unfold isOLS at h
    rw [hfst] at h
    unfold gwCoeffs
    rw [hg, hm, ← h, Matrix.mulVec_mulVec,
      Matrix.nonsing_inv_mul _ (isUnit_iff_ne_zero.mpr hdet),
      Matrix.one_mulVec]
  constructor
  · simp only [Aw, ampOf, hco]
  · simp only [Phiw, phiOf, hco]

lemma ofFn_tv8 : List.ofFn tv8 = ts8 := by
  simp [tv8, ts8, List.ofFn_succ]

/-- Concrete instantiation of `batched_matches_scalar` on the batch `d8`
with the exactly-sinusoidal prediction `yp8` and scalar fit `(5, 3, 4)`. -/
theorem batched_matches_scalar_witness :
    Aw d8 yp8 0 = ampOf ![(5:ℝ), 3, 4] ∧
    Phiw d8 yp8 0 = phiOf ![(5:ℝ), 3, 4] := by
  have hdet : (gram (List.ofFn tv8)).det ≠ 0 := by
    rw [ofFn_tv8]; exact det_gram_ts8
  have hβ : isOLS (List.ofFn fun t => (tv8 t, yp8 0 t)) ![(5:ℝ), 3, 4] := by
    have hlist : (List.ofFn fun t => (tv8 t, yp8 0 t))
        = (List.ofFn tv8).map fun τ => (τ, Tsyn τ) := by
      simp [List.map_ofFn, Function.comp_def, yp8]
    rw [hlist]
    exact olsSyn _
  exact batched_matches_scalar d8 tv8 yp8 (fun t => rfl) (fun t => rfl)
    ![(5:ℝ), 3, 4] hβ hdet

/-- C6: when every entry of the true-value tensor is missing, `rmse`
returns exactly 0 (the guarded else-branch, never a 0/0); otherwise it
returns the masked root-mean-square error over the non-missing
positions. -/
theorem rmse_all_missing (y_true : List (Option ℝ)) (y_pred : List ℝ) :
    ((∀ o ∈ y_true, o = none) → rmse y_true y_pred = 0) ∧
    ((∃ o ∈ y_true, o.isSome) →
      rmse y_true y_pred =
        Real.sqrt ((List.zipWith sqOrZero y_true y_pred).sum /
          (y_true.filter Option.isSome).length)) := by
  constructor
  · intro h
    have hf : y_true.filter Option.isSome = [] := by
      rw [List.filter_eq_nil_iff]
      intro a ha
      rw [h a ha]
      simp
    unfold rmse
    rw [hf]
    simp
  · rintro ⟨o, ho, hso⟩
    have hpos : 0 < (y_true.filter Option.isSome).length :=
      List.length_pos.mpr
        (List.ne_nil_of_mem (List.mem_filter.mpr ⟨ho, hso⟩))
    unfold rmse
    rw [if_pos hpos]

/-- Concrete instantiation of `rmse_all_missing`: an all-missing
two-element true-value tensor yields a loss of exactly 0. -/
theorem rmse_all_missing_witness : rmse [none, none] [1, 2] = 0 :=
  (rmse_all_missing [none, none] [1, 2]).1 (by simp)

/-- C5: for every input and all non-negative configuration scalars, the
composite training loss is exactly the main-variable masked rmse, plus
`lamb` times the auxiliary-variable masked rmse, plus `lamb2` times the
rmse of the stored `Ar_obs` against the batched-regression `Ar_pred`,
plus `lamb3` times the rmse of the stored `delPhi_obs` against the
batched-regression `delPhi_pred`. -/
theorem composite_loss_formula {S T : ℕ} [NeZero T] (temp_index : ℕ)
    (temp_mean temp_sd lamb lamb2 lamb3 : ℝ)
    (h1 : 0 ≤ lamb) (h2 : 0 ≤ lamb2) (h3 : 0 ≤ lamb3)
    (d : LossData S T) (y_pred : Fin S → Fin T → ℕ → ℝ) :
    weighted_masked_rmse_gw temp_index temp_mean temp_sd lamb lamb2 lamb3
        d y_pred =
      rmse_masked_one_var d y_pred 0
        + lamb * rmse_masked_one_var d y_pred 1
        + lamb2 * rmse (List.ofFn fun s => d.Ar_obs s 0)
            (List.ofFn fun s =>
              ArPred d (yPredTemp temp_index y_pred temp_mean temp_sd) s)
        + lamb3 * rmse (List.ofFn fun s => d.delPhi_obs s 0)
            (List.ofFn fun s =>
              delPhiPred d (yPredTemp temp_index y_pred temp_mean temp_sd) s) :=
  rfl

/-- Concrete instantiation of `composite_loss_formula` with weights
`lamb = 1`, `lamb2 = 2`, `lamb3 = 3` on the one-segment input `dEx`. -/
theorem composite_loss_formula_witness :
    weighted_masked_rmse_gw 0 0 1 1 2 3 dEx (fun _ _ _ => 0) =
      rmse_masked_one_var dEx (fun _ _ _ => 0) 0
        + 1 * rmse_masked_one_var dEx (fun _ _ _ => 0) 1
        + 2 * rmse (List.ofFn fun s => dEx.Ar_obs s 0)
            (List.ofFn fun s => ArPred dEx (yPredTemp 0 (fun _ _ _ => 0) 0 1) s)
        + 3 * rmse (List.ofFn fun s => dEx.delPhi_obs s 0)
            (List.ofFn fun s =>
              delPhiPred dEx (yPredTemp 0 (fun _ _ _ => 0) 0 1) s) :=
  composite_loss_formula 0 0 1 1 2 3 (by norm_num) (by norm_num)
    (by norm_num) dEx (fun _ _ _ => 0)

lemma validVals_length (y : List (Option ℝ)) :
    (y.filter Option.isSome).length = (validVals y).length := by
  induction y with
  | nil => rfl
  | cons o l ih =>
      cases o <;>
        simp [validVals, List.filter_cons, List.filterMap_cons] at ih ⊢ <;>
        omega

lemma sum_getD (y : List (Option ℝ)) :
    (y.map fun o => o.getD 0).sum = (validVals y).sum := by
  induction y with
  | nil => rfl
  | cons o l ih =>
      cases o <;> simp [validVals, List.filterMap_cons] at ih ⊢ <;>
        rw [ih]

lemma sum_sq_dev (y : List (Option ℝ)) (m : ℝ) :
    ((y.map fun o =>
        match o with
        | none => (0:ℝ)
        | some v => v - m).map fun x => x^2).sum
      = ((validVals y).map fun v => (v - m)^2).sum := by
  induction y with
  | nil => rfl
  | cons o l ih =>
      cases o <;> simp [validVals, List.filterMap_cons] at ih ⊢ <;>
        rw [ih]

/-- C7: on a series with missing entries whose non-missing subset has at
least two elements, the masked mean equals the ordinary mean of the
non-missing subset and the masked standard deviation equals the ordinary
sample standard deviation (denominator `n - 1`) of that subset. -/
theorem masked_stats_eq (y : List (Option ℝ))
    (h : 2 ≤ (y.filter Option.isSome).length) :
    mean_masked y = listMean (validVals y) ∧
    std_masked y = sampleStd (validVals y) := by
  have hmean : mean_masked y = listMean (validVals y) := by
    unfold mean_masked listMean
    rw [sum_getD, validVals_length]
  refine ⟨hmean, ?_⟩
  unfold std_masked sampleStd dev_masked
  rw [sum_sq_dev y (mean_masked y), validVals_length]
  simp only [hmean]

/-- Concrete instantiation of `masked_stats_eq` on `[1, NaN, 3]`. -/
theorem masked_stats_eq_witness :
    mean_masked [some 1, none, some 3]
        = listMean (validVals [some 1, none, some 3]) ∧
    std_masked [some 1, none, some 3]
        = sampleStd (validVals [some 1, none, some 3]) :=
  masked_stats_eq [some 1, none, some 3] (by simp)

/-- C8: the Harmonic Signal Estimator is a total function that never
raises: on an empty/all-missing input or a singular design it returns the
all-missing six-field result, and the Signal Table Builder consumes that
missing fit without error — the missingness propagates through the
derived `Ar_obs`/`delPhi_obs` arithmetic and the plausibility filter, so
the whole segment record comes out missing. -/
theorem amp_phi_failure_missing (confInt : Fin 3 → Fin 2 → ℝ)
    (pts : List (ℝ × Option ℝ)) (isWater : Bool) (airFit : Option Fit) :
    (cleanPts pts isWater = [] → amp_phi confInt pts isWater = none) ∧
    ((gram ((cleanPts pts isWater).map Prod.fst)).det = 0 →
      amp_phi confInt pts isWater = none) ∧
    (amp_phi confInt pts isWater = none →
      segSignal airFit (amp_phi confInt pts isWater) = (none, none)) := by
  have hdet0 : (gram ((cleanPts pts isWater).map Prod.fst)).det = 0 →
      amp_phi confInt pts isWater = none := by
    intro h
    unfold amp_phi
    rw [if_pos h]
  refine ⟨?_, hdet0, ?_⟩
  · intro hc
    apply hdet0
    rw [hc]
    simp [gram, Matrix.det_fin_three]
  · intro hnone
    rw [hnone]
    unfold segSignal
    simp [oDiv, oSub, filterSignal]

/-- Concrete instantiation of `amp_phi_failure_missing`: the empty input
series fails the fit, and the all-missing result propagates through the
builder's derived record. -/
theorem amp_phi_failure_missing_witness :
    amp_phi (fun _ _ => 0) [] false = none ∧
    segSignal (some fitEx) (amp_phi (fun _ _ => 0) [] false)
      = (none, none) := by
  have h := amp_phi_failure_missing (fun _ _ => 0) [] false (some fitEx)
  have h1 : amp_phi (fun _ _ => 0) [] false = none := h.1 rfl
  exact ⟨h1, h.2.2 h1⟩

lemma filterSignal_bounds {F : Type} [LinearOrderedField F]
    (a d : Option F) (ha : ∀ x, a = some x → 0 ≤ x) :
    ((filterSignal a d).1 = none ∨
      ∃ x, (filterSignal a d).1 = some x ∧ 0 ≤ x ∧ x ≤ 11/10) ∧
    ((filterSignal a d).2 = none ∨
      ∃ y, (filterSignal a d).2 = some y ∧ 0 ≤ y) := by
  rcases a with _ | x
  · simp [filterSignal]
  · have hx0 : 0 ≤ x := ha x rfl
    rcases d with _ | y
    · by_cases hx : x ≤ 11/10 <;> simp [filterSignal, hx, hx0]
    · by_cases hx : x ≤ 11/10
      · by_cases hy : (-10:F) ≤ y
        · by_cases hy0 : 0 < y <;>
            simp [filterSignal, hx, hy, hy0, hx0, le_of_lt]
        · simp [filterSignal, hx, hy]
      · simp [filterSignal, hx]

/-- C9 (amended): after the plausibility filtering, provided the incoming
amplitude ratio is a ratio of nonnegative amplitudes, every segment
record satisfies `Ar_obs ∈ [0, 1.1]` or missing, and
`delPhi_obs ∈ [0, ∞)` (in days) or missing.  The spec's open lower bound
`(0, 1.1]` fails: see `filter_lower_bound_cex`. -/
theorem segSignal_invariant (airFit waterFit : Option Fit)
    (hair : ∀ f, airFit = some f → 0 ≤ f.amp)
    (hwater : ∀ f, waterFit = some f → 0 ≤ f.amp) :
    ((segSignal airFit waterFit).1 = none ∨
      ∃ x, (segSignal airFit waterFit).1 = some x ∧ 0 ≤ x ∧ x ≤ 11/10) ∧
    ((segSignal airFit waterFit).2 = none ∨
      ∃ y, (segSignal airFit waterFit).2 = some y ∧ 0 ≤ y) := by
  unfold segSignal
  apply filterSignal_bounds
  intro x hx
  rcases waterFit with _ | wf
  · simp [oDiv] at hx
  · rcases airFit with _ | af
    · simp [oDiv] at hx
    · simp [oDiv] at hx
      exact hx ▸ div_nonneg (hwater wf rfl) (hair af rfl)

/-- C9 as stated is refuted at the lower edge: a segment whose
observed-water amplitude is exactly 0 (air amplitude 1, equal phases)
passes the plausibility filter with `Ar_obs = 0`, and 0 lies outside the
claimed open-below interval `(0, 1.1]`. -/
theorem filter_lower_bound_cex :
    (segSignal (some ⟨1, 1, 0, 0, 0, 0⟩) (some ⟨0, 1, 0, 0, 0, 0⟩)).1
        = some 0 ∧
    ¬ (0:ℝ) < 0 := by
  refine ⟨?_, lt_irrefl 0⟩
  unfold segSignal
  norm_num [oDiv, oSub, filterSignal]

/-- Concrete instantiation of `segSignal_invariant` with a present air fit
and a missing water fit. -/
theorem segSignal_invariant_witness :
    ((segSignal (some fitEx) none).1 = none ∨
      ∃ x, (segSignal (some fitEx) none).1 = some x ∧
        0 ≤ x ∧ x ≤ 11/10) ∧
    ((segSignal (some fitEx) none).2 = none ∨
      ∃ y, (segSignal (some fitEx) none).2 = some y ∧ 0 ≤ y) :=
  segSignal_invariant (some fitEx) none
    (fun f hf => by cases hf; norm_num [fitEx])
    (fun f hf => by cases hf)

/-- C10: after the Signal Table Builder's plausibility filtering, `Ar_obs`
is missing if and only if `delPhi_obs` is missing — missingness in either
derived field, including missingness caused by a failed underlying fit,
forces the other field to missing as well. -/
theorem ar_delphi_missing_iff (airFit waterFit : Option Fit) :
    (segSignal airFit waterFit).1 = none ↔
    (segSignal airFit waterFit).2 = none := by
  unfold segSignal
  exact filterSignal_none_iff _ _
